import Mathlib

/-!
Verification development for the hyperverge CLI (`hyperverge.js`).

The JavaScript source is shallowly embedded: strings are Lean `String`s
(manipulated through their `List Char` data where convenient), the
filesystem is an explicit tree value, the `request` transport is an explicit
pair of callback arguments `(err, body)`, and process termination
(`handleError` / `process.exit`) and uncaught callback exceptions are made
visible as constructors of explicit result types.
-/

namespace Hyperverge

/-! ## Character / path utilities -/

/-- JavaScript `String.prototype.split` with a single-character separator,
on the character-list view of the string.  As in JS, splitting the empty
string yields `[""]`, so the result list is never empty. -/
def splitOnChar (sep : Char) : List Char → List (List Char)
  | [] => [[]]
  | c :: rest =>
    match splitOnChar sep rest with
    | [] => [[]]
    | h :: t => if c = sep then [] :: h :: t else (c :: h) :: t

/-- `splitOnChar` never returns the empty list. -/
theorem splitOnChar_ne_nil (sep : Char) : (cs : List Char) → splitOnChar sep cs ≠ []
  | [] => by simp [splitOnChar]
  | c :: rest => by
    have h := splitOnChar_ne_nil sep rest
    unfold splitOnChar
    cases hs : splitOnChar sep rest with
    | nil => exact absurd hs h
    | cons hd tl => by_cases hc : c = sep <;> simp [hc]

/-- Splitting a list that does not contain the separator returns it whole. -/
theorem splitOnChar_of_not_mem (sep : Char) :
    (cs : List Char) → sep ∉ cs → splitOnChar sep cs = [cs]
  | [], _ => rfl
  | c :: rest, h => by
    have hc : c ≠ sep := fun hc => h (hc ▸ List.mem_cons_self c rest)
    have hrest : sep ∉ rest := fun hm => h (List.mem_cons_of_mem _ hm)
    unfold splitOnChar
    rw [splitOnChar_of_not_mem sep rest hrest]
    simp [hc]

/-- Test for a leading `/`, the embedding of the source's `/^\//` regex test
(`normalisePath`, hyperverge.js line 23). -/
def isAbsolute (p : String) : Bool :=
  p.data.head? == some '/'

/-- `path.join(directory, entry)` as used by `listFiles`: the entry names the
CLI joins are plain file/directory names, for which node's `join` is exactly
separator concatenation (node additionally collapses redundant `.`/`..`/`//`
segments, which plain names never introduce). -/
def pathJoin (a b : String) : String :=
  String.mk (a.data ++ '/' :: b.data)

/-- One pass of POSIX path normalisation over the segments of an absolute
path: empty and `.` segments are dropped, `..` pops the previous segment
(and is a no-op at the root, as in `path.resolve`). -/
def normSegs (acc : List (List Char)) : List (List Char) → List (List Char)
  | [] => acc.reverse
  | s :: rest =>
    if s = [] ∨ s = ['.'] then normSegs acc rest
    else if s = ['.', '.'] then normSegs acc.tail rest
    else normSegs (s :: acc) rest

/-- Interleave `/` between segments. -/
def joinSegs : List (List Char) → List Char
  | [] => []
  | [s] => s
  | s :: rest => s ++ '/' :: joinSegs rest

/-- `path.resolve(process.cwd(), filePath)` (hyperverge.js line 27),
specialised to the call site: `process.cwd()` is an absolute path and the
argument is only resolved when it is relative, so the result is the
normalisation of `cwd + "/" + filePath`, always beginning with `/`. -/
def pathResolve (cwd p : String) : String :=
  String.mk ('/' :: joinSegs (normSegs [] (splitOnChar '/' (cwd.data ++ '/' :: p.data))))

/-- `normalisePath` (hyperverge.js lines 22-28): a path beginning with `/`
is returned as is; any other path is resolved against the current working
directory. -/
def normalisePath (cwd p : String) : String :=
  if isAbsolute p then p else pathResolve cwd p

/-- The result of `pathResolve` always begins with `/`. -/
theorem isAbsolute_pathResolve (cwd p : String) :
    isAbsolute (pathResolve cwd p) = true := by
  simp [pathResolve, isAbsolute]

/-- `normalisePath` outputs always begin with `/`. -/
theorem isAbsolute_normalisePath (cwd p : String) :
    isAbsolute (normalisePath cwd p) = true := by
  unfold normalisePath
  cases h : isAbsolute p with
  | true => simp [h]
  | false => simp [h, isAbsolute_pathResolve cwd p]

/-- Joining a name onto an absolute directory path stays absolute. -/
theorem isAbsolute_pathJoin (a b : String) (h : isAbsolute a = true) :
    isAbsolute (pathJoin a b) = true := by
  unfold isAbsolute at h ⊢
  unfold pathJoin
  cases ha : a.data with
  | nil => rw [ha] at h; simp at h
  | cons c rest =>
    rw [ha] at h
    simp only [List.head?] at h ⊢
    simpa using h

/-! ## Extension handling -/

/-- The index of the last occurrence of `c`, if any. -/
def lastIdxOf (c : Char) (cs : List Char) : Option Nat :=
  cs.enum.foldl (fun acc p => if p.2 = c then some p.1 else acc) none

/-- `path.extname` on the character-list view: take the basename (the part
after the last `/`), and return the suffix starting at its last `.`, unless
the `.` is absent or leads the basename (dotfile), in which case the
extension is empty. -/
def extnameL (cs : List Char) : List Char :=
  let base := (splitOnChar '/' cs).getLastD []
  match lastIdxOf '.' base with
  | none => []
  | some 0 => []
  | some i => base.drop i

/-- `path.extname(file).split('.')[1]` (hyperverge.js line 333): the second
component of the `.`-split of the extension; `none` embeds JS `undefined`
(e.g. for a file with no extension, where `extname` is `""` and the split is
`[""]`). -/
def extSeg (p : String) : Option (List Char) :=
  (splitOnChar '.' (extnameL p.data)).get? 1

/-- The supported alternatives of the regex
`/(gif|jpe?g|tiff|png|pdf)$/i` (hyperverge.js line 35). -/
def supportedSuffixes : List String := ["gif", "jpg", "jpeg", "tiff", "png", "pdf"]

/-- The regex test `supportedFileExtensions.test(s)`: the regex is anchored
only at the end and is case-insensitive, so it holds exactly when the
lower-cased string has one of the six alternatives as a plain suffix.  Note
that no dot is required: the test accepts any string merely ending in those
letters. -/
def supportedFileExtensionsTest (s : String) : Bool :=
  supportedSuffixes.any (fun suf => suf.data.isSuffixOf (s.data.map Char.toLower))

/-- `supportedFileExtensions.test(ext)` where `ext` may be JS `undefined`
(hyperverge.js line 339): JS coerces `undefined` to the string
`"undefined"`, which the regex rejects. -/
def testOpt (s : Option (List Char)) : Bool :=
  supportedFileExtensionsTest (String.mk (s.getD "undefined".data))

/-- The multipart form field name `formData[ext]` (hyperverge.js line 347):
the `ext` variable itself, i.e. the dot-split second component of
`path.extname`, with its original case.  (`"undefined"` embeds the JS key
coercion of an undefined `ext`; that branch is unreachable because the
extension check exits first.) -/
def formFieldName (p : String) : String :=
  match extSeg p with
  | some cs => String.mk cs
  | none => "undefined"

/-! ## File discovery (`listFiles`, hyperverge.js lines 101-109)

The filesystem is embedded as an explicit tree of named entries; `statSync`
classification is the `file`/`dir` constructor.  The source builds the
joined entry paths, keeps the plain files, recurses depth-first into the
directories, then filters the concatenation by the extension regex and maps
every survivor through `normalisePath`. -/

inductive FsEntry where
  | file (name : String)
  | dir (name : String) (entries : List FsEntry)

/-- Entry name, the directory-listing string `readdirSync` yields. -/
def FsEntry.name : FsEntry → String
  | .file n => n
  | .dir n _ => n

/-- The `statSync(entryPath).isFile()` classification. -/
def FsEntry.isFile : FsEntry → Bool
  | .file _ => true
  | .dir _ _ => false

/-- The filter-then-normalise tail of `listFiles`:
`[...].filter(path => supportedFileExtensions.test(path)).map(path => normalisePath(path))`. -/
def postProcess (cwd : String) (l : List String) : List String :=
  (l.filter supportedFileExtensionsTest).map (normalisePath cwd)

/-- The joined paths of the plain-file entries of one directory level
(`entryPaths.filter(... isFile ...)`). -/
def filePathsOf (dirPath : String) (entries : List FsEntry) : List String :=
  (entries.filter FsEntry.isFile).map (fun e => pathJoin dirPath e.name)

mutual

/-- The contribution of one entry to
`dirPaths.reduce((prev, curr) => prev.concat(listFiles(curr)), [])`:
files contribute nothing, a subdirectory contributes its full recursive
`listFiles` result. -/
def entryDirFiles (cwd dirPath : String) : FsEntry → List String
  | .file _ => []
  | .dir n es =>
    postProcess cwd
      (filePathsOf (pathJoin dirPath n) es ++ allDirFiles cwd (pathJoin dirPath n) es)

/-- The concatenated recursive results over the entries of one level. -/
def allDirFiles (cwd dirPath : String) : List FsEntry → List String
  | [] => []
  | e :: rest => entryDirFiles cwd dirPath e ++ allDirFiles cwd dirPath rest

end

/-- `listFiles(directory)` over the entry list of `directory`.  The CLI
always calls it on the already-normalised `CONFIG.directory`
(hyperverge.js line 180), hence on an absolute path. -/
def listFiles (cwd dirPath : String) (entries : List FsEntry) : List String :=
  postProcess cwd (filePathsOf dirPath entries ++ allDirFiles cwd dirPath entries)

/-! ## Upload client (`uploadFile`, hyperverge.js lines 327-382) -/

/-- The fields the callback destructures from the JSON response body
(`const {status, statusCode, result} = body`).  Each is `none` when the
corresponding key is absent from the service's JSON. -/
structure Body where
  status : Option String
  statusCode : Option String
  result : Option String
deriving DecidableEq, Repr

/-- The record `uploadFile` resolves with (hyperverge.js lines 371-378). -/
structure UploadOutcome where
  action : String
  file : String
  status : Option String
  statusCode : Option String
  result : Option String
  err : Option String
deriving DecidableEq, Repr

/-- A JavaScript runtime exception surfaced by the embedding. -/
inductive JsError where
  | typeError
deriving DecidableEq, Repr

/-- The body of the `request` callback (hyperverge.js lines 369-379).
`err` and `body` are the two data arguments the transport passes; `body`
is `none` when the transport supplies `undefined` (which it does whenever
`err` is set).  Destructuring an undefined `body` throws a `TypeError`. -/
def uploadCallback (action file : String) (err : Option String) (body : Option Body) :
    Except JsError UploadOutcome :=
  match body with
  | none => .error .typeError
  | some b =>
    .ok { action := action, file := file, status := b.status,
          statusCode := b.statusCode, result := b.result, err := err }

/-- How one `uploadFile` call terminates, seen from its caller: the process
was killed by `handleError`'s `process.exit(code)`, the returned promise
resolved, or the transport callback threw and the promise never settled. -/
inductive UploadResult where
  | exited (code : Nat)
  | resolved (o : UploadOutcome)
  | threw
deriving DecidableEq, Repr

/-- `uploadFile(file, action)` (hyperverge.js lines 327-382), with the
ambient pieces made explicit: the credentials from `CONFIG`, whether
`fs.statSync(file)` succeeds, and the `(err, body)` pair the transport
hands to the callback.  The checks run in source order: unsupported
extension and unreadable file exit with code 104, missing credentials with
code 105 (`handleError` terminates the process), and only then is the
request issued and the callback run. -/
def uploadFile (appId appKey file action : String) (fileReadable : Bool)
    (err : Option String) (body : Option Body) : UploadResult :=
  if !(testOpt (extSeg file)) then .exited 104
  else if !fileReadable then .exited 104
  else if appId = "" ∨ appKey = "" then .exited 105
  else
    match uploadCallback action file err body with
    | .error _ => .threw
    | .ok o => .resolved o

/-! ## Batch orchestrator (directory branch, hyperverge.js lines 262-296)

The serial promise chain means the per-file `.then` handlers run one after
another; the embedding folds the handler body over the list of outcomes the
uploads resolve with.  `emissions` records every `writeResults` call made
from the completion check, in order, with the `{errors, results}` pair it
was given. -/

structure BatchState where
  results : List UploadOutcome
  errors : List UploadOutcome
  emissions : List (List UploadOutcome × List UploadOutcome)
deriving DecidableEq, Repr

/-- One `.then(data => ...)` handler body (hyperverge.js lines 273-294):
push the outcome into `errors` if `data.err` is set (a present `err` is an
`Error` object, hence truthy) and into `results` otherwise, then compare
`errors.length + results.length` with `files.length` and flush the
aggregate through `writeResults` when they are equal. -/
def batchStep (n : Nat) (st : BatchState) (o : UploadOutcome) : BatchState :=
  let st1 :=
    if o.err.isSome then { st with errors := st.errors ++ [o] }
    else { st with results := st.results ++ [o] }
  if st1.errors.length + st1.results.length = n then
    { st1 with emissions := st1.emissions ++ [(st1.errors, st1.results)] }
  else st1

/-- The whole directory-mode accumulation, given the outcomes the serial
uploads resolve with, in file order. -/
def runBatch (os : List UploadOutcome) : BatchState :=
  os.foldl (batchStep os.length) ⟨[], [], []⟩

/-- Observable scheduling events of the batch: the upload of file `i`
being started, and its promise resolving. -/
inductive BatchEvent where
  | start (i : Nat)
  | resolve (i : Nat)
deriving DecidableEq, Repr

/-- The execution trace denoted by the promise chain
`files.reduce((acc, file, idx) => acc.then(() => uploadFile(file, action).then(...)), Promise.resolve())`
(hyperverge.js lines 266-296): `acc.then(k)` runs `k` only once everything
chained into `acc` has resolved, so the chain denotes the sequential
composition of the uploads — each upload starts, then resolves, before the
next one starts. -/
def batchTraceAux : Nat → List String → List BatchEvent
  | _, [] => []
  | i, _ :: rest => .start i :: .resolve i :: batchTraceAux (i + 1) rest

/-- Trace of a directory-mode run over `files`. -/
def batchTrace (files : List String) : List BatchEvent :=
  batchTraceAux 0 files

/-! ## Credential masking and the boot log (hyperverge.js lines 188-222) -/

/-- JavaScript's `.` regex class excludes the four line terminators. -/
def lineTerm (c : Char) : Bool :=
  c = '\n' ∨ c = '\r' ∨ c.toNat = 0x2028 ∨ c.toNat = 0x2029

/-- `mask(str)` on the character list (hyperverge.js lines 188-193): short
strings go through `str.replace(/./g, '#')`, which rewrites every character
matched by `.` — i.e. everything except line terminators; otherwise every
character is mapped over its index, keeping index `< 2` and
index `> length - 3` and masking the rest. -/
def maskChars (cs : List Char) : List Char :=
  if cs.length < 6 then
    cs.map (fun c => if lineTerm c then c else '#')
  else
    cs.enum.map (fun p => if p.1 < 2 ∨ p.1 > cs.length - 3 then p.2 else '#')

/-- `mask` on strings. -/
def mask (s : String) : String :=
  String.mk (maskChars s.data)

/-- The resolved `CONFIG` fields the boot log prints
(hyperverge.js lines 195-222).  `appKey`/`appId` are always strings (the
CLI defaults them to `""`). -/
structure Config where
  action : String
  file : Option String
  directory : Option String
  output : String
  appKey : String
  appId : String
  host : String
deriving DecidableEq, Repr

/-- The object serialised into the boot-time `console.log`
(hyperverge.js lines 205-222): every configuration field verbatim except
the credentials, which pass through `mask`. -/
structure BootLogLine where
  action : String
  file : Option String
  directory : Option String
  output : String
  appKeyMasked : String
  appIdMasked : String
  host : String
deriving DecidableEq, Repr

/-- Build the logged line from the configuration. -/
def bootLogLine (c : Config) : BootLogLine :=
  { action := c.action, file := c.file, directory := c.directory,
    output := c.output, appKeyMasked := mask c.appKey,
    appIdMasked := mask c.appId, host := c.host }

/-! ## Predicates taken from the specification's wording

These two definitions follow the words of the spec, not the source; they
exist to be compared against the behaviour of the embedded code. -/

/-- Spec wording for an outcome's `err` being present. -/
def errPresent (o : UploadOutcome) : Bool :=
  o.err.isSome

/-- Spec wording for `status`/`result` being meaningfully present. -/
def statusMeaningful (o : UploadOutcome) : Bool :=
  o.status.isSome || o.result.isSome

/-- The spec's classification invariant: exactly one of `err` present /
`status`-`result` meaningfully present. -/
def claimedXor (o : UploadOutcome) : Bool :=
  xor (errPresent o) (statusMeaningful o)

/-- The claim's notion of "file extension in the supported set, compared
case-insensitively": the dot-separated extension segment, lower-cased, is
one of the six supported strings.  (The source instead tests a bare suffix
of the whole path.) -/
def claimedExtInSet (p : String) : Bool :=
  match extSeg p with
  | some e => supportedSuffixes.contains (String.mk (e.map Char.toLower))
  | none => false

/-! ## Shared helper lemmas -/

/-- `normalisePath` leaves paths that already begin with `/` unchanged. -/
theorem normalisePath_of_abs (cwd p : String) (h : isAbsolute p = true) :
    normalisePath cwd p = p := by
  simp [normalisePath, h]

/-- Unpacking membership in the filter-then-normalise tail of `listFiles`. -/
theorem postProcess_mem {cwd : String} {l : List String} {p : String}
    (h : p ∈ postProcess cwd l) :
    ∃ q, q ∈ l ∧ supportedFileExtensionsTest q = true ∧ p = normalisePath cwd q := by
  unfold postProcess at h
  rcases List.mem_map.1 h with ⟨q, hq, rfl⟩
  rcases List.mem_filter.1 hq with ⟨hql, hqt⟩
  exact ⟨q, hql, hqt, rfl⟩

/-- Joined per-level file paths are absolute when the directory path is. -/
theorem filePathsOf_abs {dirPath : String} (hd : isAbsolute dirPath = true)
    {entries : List FsEntry} {q : String} (h : q ∈ filePathsOf dirPath entries) :
    isAbsolute q = true := by
  unfold filePathsOf at h
  rcases List.mem_map.1 h with ⟨e, _, rfl⟩
  exact isAbsolute_pathJoin _ _ hd

/-! ## Claim theorems -/

/-- Claim C2 (code bug): on a transport error the `request` callback
receives `err` set and `body` undefined; destructuring the undefined body
(`const {status, statusCode, result} = body`) throws a `TypeError`, so the
promise `uploadFile` returned never resolves — contradicting both the claim
and the function's own doc comment ("A promise which always resolves"). -/
theorem uploadFile_transport_error_never_resolves :
    uploadFile "someAppId" "someAppKey" "/tmp/doc.png" "readPAN" true
      (some "Error: connect ECONNREFUSED") none = .threw ∧
    uploadCallback "readPAN" "/tmp/doc.png" (some "Error: connect ECONNREFUSED") none
      = .error .typeError :=
  ⟨rfl, rfl⟩

/-- Claim C3 (code bug): over an empty discovered file list the reduce
callback never runs, the completion check is never evaluated, and no
`BatchResult` is ever handed to the sink — the claimed immediate emission
of `{results: [], errors: []}` does not happen. -/
theorem runBatch_empty_no_emission :
    (runBatch []).emissions = [] ∧ runBatch [] = ⟨[], [], []⟩ := by
  decide

/-- Claim C4 (code bug): a per-item upload error is fatal in batch mode.
A dotless file name ending in `pdf` passes the discovery filter, but
`uploadFile` then finds no dot-separated extension segment, fails the
extension check and calls `handleError`, which kills the whole process with
exit code 104 instead of recording the failure in `errors` and letting the
batch continue. -/
theorem batch_upload_error_kills_process :
    listFiles "/home" "/docs" [.file "reportpdf"] = ["/docs/reportpdf"] ∧
    uploadFile "someAppId" "someAppKey" "/docs/reportpdf" "readKYC" true none
      (some ⟨some "failure", some "401", none⟩) = .exited 104 := by
  decide

/-- Claim C7 counterexample: when the transport reports no error but the
service's JSON body carries none of `status`/`statusCode`/`result`, the
callback resolves an outcome with `err` absent and `status`/`result` absent
as well — the claimed exactly-one invariant fails (both sides absent). -/
theorem outcome_xor_fails_on_empty_body :
    uploadCallback "readPAN" "/tmp/doc.png" none (some ⟨none, none, none⟩)
      = .ok ⟨"readPAN", "/tmp/doc.png", none, none, none, none⟩ ∧
    claimedXor ⟨"readPAN", "/tmp/doc.png", none, none, none, none⟩ = false :=
  ⟨rfl, rfl⟩

/-- Claim C7 (amended): an outcome the callback resolves carries `action`
and `file`, copies `err` verbatim from the transport and
`status`/`statusCode`/`result` verbatim from the response body; hence the
claimed exclusivity holds exactly when the transport errs or the body is
meaningful but not both, and it fails when both sides are absent. -/
theorem uploadCallback_copies_fields (a f : String) (e : Option String) (b : Body)
    (o : UploadOutcome) (h : uploadCallback a f e (some b) = .ok o) :
    o.action = a ∧ o.file = f ∧ o.err = e ∧ o.status = b.status ∧
    o.statusCode = b.statusCode ∧ o.result = b.result ∧
    claimedXor o = xor e.isSome (b.status.isSome || b.result.isSome) := by
  unfold uploadCallback at h
  rcases h with ⟨⟩
  simp [claimedXor, errPresent, statusMeaningful]

/-- Witness for `uploadCallback_copies_fields` at a concrete success
response. -/
theorem uploadCallback_copies_fields_witness :
    (⟨"readPAN", "/a/x.png", some "success", some "200", some "res", none⟩ :
        UploadOutcome).action = "readPAN" ∧
    (⟨"readPAN", "/a/x.png", some "success", some "200", some "res", none⟩ :
        UploadOutcome).file = "/a/x.png" ∧
    (⟨"readPAN", "/a/x.png", some "success", some "200", some "res", none⟩ :
        UploadOutcome).err = none ∧
    (⟨"readPAN", "/a/x.png", some "success", some "200", some "res", none⟩ :
        UploadOutcome).status = (⟨some "success", some "200", some "res"⟩ : Body).status ∧
    (⟨"readPAN", "/a/x.png", some "success", some "200", some "res", none⟩ :
        UploadOutcome).statusCode = (⟨some "success", some "200", some "res"⟩ : Body).statusCode ∧
    (⟨"readPAN", "/a/x.png", some "success", some "200", some "res", none⟩ :
        UploadOutcome).result = (⟨some "success", some "200", some "res"⟩ : Body).result ∧
    claimedXor ⟨"readPAN", "/a/x.png", some "success", some "200", some "res", none⟩
      = xor (none : Option String).isSome
          ((⟨some "success", some "200", some "res"⟩ : Body).status.isSome
            || (⟨some "success", some "200", some "res"⟩ : Body).result.isSome) :=
  uploadCallback_copies_fields "readPAN" "/a/x.png" none
    ⟨some "success", some "200", some "res"⟩
    ⟨"readPAN", "/a/x.png", some "success", some "200", some "res", none⟩ rfl

/-- Claim C8 counterexample: a file ending in `.PNG` yields the form field
name `PNG`, not the claimed lower-cased `png` — the source never lower-cases
the extension segment it uses as the field key. -/
theorem formFieldName_not_lowercased :
    formFieldName "/a/b.PNG" = "PNG" ∧ formFieldName "/a/b.PNG" ≠ "png" := by
  decide

/-- Claim C8 (amended): the multipart form field carrying the file bytes is
named by the file's extension with the leading dot stripped and the original
case preserved (no lower-casing). -/
theorem formFieldName_strips_dot_keeps_case (p : String) (e : List Char)
    (h1 : extnameL p.data = '.' :: e) (h2 : '.' ∉ e) :
    formFieldName p = String.mk e := by
  have hsplit : splitOnChar '.' ('.' :: e) = [] :: splitOnChar '.' e := by
    have hdef : splitOnChar '.' ('.' :: e) =
        match splitOnChar '.' e with
        | [] => [[]]
        | h :: t => if ('.' : Char) = '.' then [] :: h :: t else ('.' :: h) :: t := rfl
    cases hs : splitOnChar '.' e with
    | nil => exact absurd hs (splitOnChar_ne_nil '.' e)
    | cons h t => rw [hdef, hs]; simp
  have hseg : extSeg p = some e := by
    unfold extSeg
    rw [h1, hsplit, splitOnChar_of_not_mem '.' e h2]
    rfl
  unfold formFieldName
  rw [hseg]

/-- Witness for `formFieldName_strips_dot_keeps_case` at `/a/b.PNG`. -/
theorem formFieldName_strips_dot_keeps_case_witness :
    formFieldName "/a/b.PNG" = String.mk ['P', 'N', 'G'] :=
  formFieldName_strips_dot_keeps_case "/a/b.PNG" ['P', 'N', 'G'] (by decide) (by decide)

/-- Claim C9: `normalisePath` returns any path beginning with `/`
unchanged, resolves every other path against the current working directory,
and — because a resolved path always begins with `/` — is idempotent. -/
theorem normalisePath_spec_and_idempotent :
    (∀ cwd p : String, isAbsolute p = true → normalisePath cwd p = p) ∧
    (∀ cwd p : String, isAbsolute p = false → normalisePath cwd p = pathResolve cwd p) ∧
    (∀ cwd p : String, normalisePath cwd (normalisePath cwd p) = normalisePath cwd p) := by
  refine ⟨fun cwd p h => normalisePath_of_abs cwd p h, fun cwd p h => by simp [normalisePath, h],
    fun cwd p => normalisePath_of_abs cwd _ (isAbsolute_normalisePath cwd p)⟩

/-- Witness for `normalisePath_spec_and_idempotent` at concrete paths. -/
theorem normalisePath_spec_and_idempotent_witness :
    normalisePath "/home/user" "/a/b.png" = "/a/b.png" ∧
    normalisePath "/home/user" "x.png" = pathResolve "/home/user" "x.png" ∧
    normalisePath "/home/user" (normalisePath "/home/user" "x.png")
      = normalisePath "/home/user" "x.png" :=
  ⟨normalisePath_spec_and_idempotent.1 "/home/user" "/a/b.png" (by decide),
   normalisePath_spec_and_idempotent.2.1 "/home/user" "x.png" (by decide),
   normalisePath_spec_and_idempotent.2.2 "/home/user" "x.png"⟩

/-! ## Batch accounting (claim C1) -/

/-- One handler step grows `errors.length + results.length` by exactly one:
each resolved outcome is appended to exactly one bucket. -/
theorem batchStep_counts (n : Nat) (st : BatchState) (o : UploadOutcome) :
    (batchStep n st o).errors.length + (batchStep n st o).results.length
      = st.errors.length + st.results.length + 1 := by
  unfold batchStep
  by_cases he : o.err.isSome <;> simp [he] <;> split <;> simp <;> omega

/-- When the post-append count is still short of `n`, the completion check
fails and nothing is emitted by this step. -/
theorem batchStep_emissions_of_ne (n : Nat) (st : BatchState) (o : UploadOutcome)
    (h : st.errors.length + st.results.length + 1 ≠ n) :
    (batchStep n st o).emissions = st.emissions := by
  unfold batchStep
  by_cases he : o.err.isSome <;> simp [he] <;> rw [if_neg (by omega)]

/-- When the post-append count reaches `n`, the step appends exactly one
emission, carrying its own `errors`/`results` buckets. -/
theorem batchStep_emissions_of_eq (n : Nat) (st : BatchState) (o : UploadOutcome)
    (h : st.errors.length + st.results.length + 1 = n) :
    (batchStep n st o).emissions
      = st.emissions ++ [((batchStep n st o).errors, (batchStep n st o).results)] := by
  unfold batchStep
  by_cases he : o.err.isSome <;> simp [he] <;> rw [if_pos (by omega)]

/-- Completion accounting over the serial fold: starting from a state whose
buckets plus the remaining outcomes count to `n` and with nothing emitted
yet, processing a nonempty remainder ends with exactly one emission — made
at the final append, carrying the final buckets — and with the bucket sizes
summing to `n`. -/
theorem runBatch_aux (n : Nat) (rest : List UploadOutcome) :
    ∀ st : BatchState,
      st.errors.length + st.results.length + rest.length = n →
      st.emissions = [] → rest ≠ [] →
      (rest.foldl (batchStep n) st).emissions
        = [((rest.foldl (batchStep n) st).errors, (rest.foldl (batchStep n) st).results)] ∧
      (rest.foldl (batchStep n) st).errors.length
        + (rest.foldl (batchStep n) st).results.length = n := by
  induction rest with
  | nil => intro st _ _ hne; exact absurd rfl hne
  | cons o rest' ih =>
    intro st hcount hemit _
    cases rest' with
    | nil =>
      have h1 : st.errors.length + st.results.length + 1 = n := by
        simpa using hcount
      have hem := batchStep_emissions_of_eq n st o h1
      have hct := batchStep_counts n st o
      simp only [List.foldl_cons, List.foldl_nil]
      rw [hem, hemit]
      exact ⟨by simp, by omega⟩
    | cons o2 r =>
      have h1 : st.errors.length + st.results.length + 1 ≠ n := by
        simp at hcount; omega
      have hem := batchStep_emissions_of_ne n st o h1
      have hct := batchStep_counts n st o
      simp only [List.foldl_cons]
      exact ih (batchStep n st o) (by simp at hcount ⊢; omega) (hem.trans hemit)
        (by simp)

/-- Claim C1: in directory mode, completion is detected solely by the check
`errors.length + results.length === files.length` evaluated after each
per-file append, and for every nonempty outcome list the orchestrator hands
the `{errors, results}` aggregate to the sink exactly once — at the final
append, where the bucket sizes sum to the number of files. -/
theorem batch_emits_exactly_once (os : List UploadOutcome) (h : os ≠ []) :
    (runBatch os).emissions = [((runBatch os).errors, (runBatch os).results)] ∧
    (runBatch os).errors.length + (runBatch os).results.length = os.length := by
  unfold runBatch
  exact runBatch_aux os.length os ⟨[], [], []⟩ (by simp) rfl h

/-- A mixed success/failure pair of outcomes. -/
def sampleBatch : List UploadOutcome :=
  [⟨"readPAN", "/a/y.png", none, none, none, some "Error: socket hang up"⟩,
   ⟨"readPAN", "/a/x.png", some "success", some "200", some "res", none⟩]

/-- Witness for `batch_emits_exactly_once` on a concrete two-file batch. -/
theorem batch_emits_exactly_once_witness :
    (runBatch sampleBatch).emissions
      = [((runBatch sampleBatch).errors, (runBatch sampleBatch).results)] ∧
    (runBatch sampleBatch).errors.length + (runBatch sampleBatch).results.length
      = sampleBatch.length :=
  batch_emits_exactly_once sampleBatch (by decide)

/-! ## Serial ordering (claim C5) -/

/-- Positions of the scheduling events in the trace of the promise chain:
the upload of the file at offset `i` of the remaining list starts at trace
position `2*i` and resolves at `2*i + 1`. -/
theorem batchTraceAux_indexOf (files : List String) :
    ∀ k i : Nat, i < files.length →
      (batchTraceAux k files).indexOf (.start (k + i)) = 2 * i ∧
      (batchTraceAux k files).indexOf (.resolve (k + i)) = 2 * i + 1 := by
  induction files with
  | nil => intro k i h; simp at h
  | cons f rest ih =>
    intro k i h
    have e1 : batchTraceAux k (f :: rest)
        = .start k :: .resolve k :: batchTraceAux (k + 1) rest := rfl
    cases i with
    | zero =>
      rw [e1, Nat.add_zero]
      refine ⟨?_, ?_⟩
      · rw [List.indexOf_cons_self]
      · rw [List.indexOf_cons_ne _ (by simp), List.indexOf_cons_self]
    | succ j =>
      have hj : j < rest.length := by simpa using h
      have hih := ih (k + 1) j hj
      have hk : k + (j + 1) = (k + 1) + j := by omega
      rw [e1, hk]
      refine ⟨?_, ?_⟩
      · rw [List.indexOf_cons_ne _ (by simp; omega), List.indexOf_cons_ne _ (by simp),
          hih.1]
        try omega
      · rw [List.indexOf_cons_ne _ (by simp), List.indexOf_cons_ne _ (by simp; omega),
          hih.2]
        try omega

/-- Claim C5: in the trace denoted by the serial promise chain, the upload
of file `i + 1` starts strictly after the upload of file `i` resolves. -/
theorem batch_serial_order (files : List String) (i : Nat) (h : i + 1 < files.length) :
    (batchTrace files).indexOf (.resolve i) < (batchTrace files).indexOf (.start (i + 1)) := by
  have h1 := (batchTraceAux_indexOf files 0 i (by omega)).2
  have h2 := (batchTraceAux_indexOf files 0 (i + 1) h).1
  simp only [Nat.zero_add] at h1 h2
  unfold batchTrace
  rw [h1, h2]
  omega

/-- Witness for `batch_serial_order` on a concrete two-file list. -/
theorem batch_serial_order_witness :
    (batchTrace ["/a/x.png", "/a/y.png"]).indexOf (.resolve 0)
      < (batchTrace ["/a/x.png", "/a/y.png"]).indexOf (.start 1) :=
  batch_serial_order ["/a/x.png", "/a/y.png"] 0 (by decide)

/-! ## Discovery properties (claim C6) -/

mutual

/-- Every path contributed by one entry's recursive scan, under an absolute
directory path, is absolute and passes the extension-regex test. -/
theorem entryDirFiles_props (cwd dirPath : String) (hd : isAbsolute dirPath = true) :
    ∀ e : FsEntry, ∀ q ∈ entryDirFiles cwd dirPath e,
      isAbsolute q = true ∧ supportedFileExtensionsTest q = true
  | .file n => by simp [entryDirFiles]
  | .dir n es => by
    intro q hq
    rw [entryDirFiles] at hq
    rcases postProcess_mem hq with ⟨q0, hq0, htest, rfl⟩
    have hp : isAbsolute (pathJoin dirPath n) = true := isAbsolute_pathJoin _ _ hd
    have habs : isAbsolute q0 = true := by
      rcases List.mem_append.1 hq0 with h1 | h2
      · exact filePathsOf_abs hp h1
      · exact (allDirFiles_props cwd (pathJoin dirPath n) hp es q0 h2).1
    rw [normalisePath_of_abs cwd q0 habs]
    exact ⟨habs, htest⟩

/-- Same property for the concatenation over a list of entries. -/
theorem allDirFiles_props (cwd dirPath : String) (hd : isAbsolute dirPath = true) :
    ∀ es : List FsEntry, ∀ q ∈ allDirFiles cwd dirPath es,
      isAbsolute q = true ∧ supportedFileExtensionsTest q = true
  | [] => by simp [allDirFiles]
  | e :: rest => by
    intro q hq
    rw [allDirFiles] at hq
    rcases List.mem_append.1 hq with h1 | h2
    · exact entryDirFiles_props cwd dirPath hd e q h1
    · exact allDirFiles_props cwd dirPath hd rest q h2

end

/-- Claim C6 (amended): every path `listFiles` returns from an absolute
directory path is absolute, is a fixed point of `normalisePath`, and passes
the source's extension-regex test — i.e. it case-insensitively ends in one
of the bare suffixes `gif`, `jpg`, `jpeg`, `tiff`, `png`, `pdf`, a dot not
required; paths without such a suffix are never returned. -/
theorem listFiles_returns_absolute_suffix (cwd dirPath : String) (entries : List FsEntry)
    (hd : isAbsolute dirPath = true) :
    ∀ p ∈ listFiles cwd dirPath entries,
      isAbsolute p = true ∧ supportedFileExtensionsTest p = true ∧
      normalisePath cwd p = p := by
  intro p hp
  unfold listFiles at hp
  rcases postProcess_mem hp with ⟨q, hq, htest, rfl⟩
  have habs : isAbsolute q = true := by
    rcases List.mem_append.1 hq with h1 | h2
    · exact filePathsOf_abs hd h1
    · exact (allDirFiles_props cwd dirPath hd entries q h2).1
  rw [normalisePath_of_abs cwd q habs]
  exact ⟨habs, htest, normalisePath_of_abs cwd q habs⟩

/-- Claim C6 counterexample: a dotless file named `mypdf` has no file
extension at all, yet the discovery filter — a bare case-insensitive suffix
test — returns it, so not every returned path has an extension in the
supported set. -/
theorem listFiles_dotless_suffix_cex :
    listFiles "/home" "/docs" [.file "mypdf"] = ["/docs/mypdf"] ∧
    claimedExtInSet "/docs/mypdf" = false := by
  decide

/-- Witness for `listFiles_returns_absolute_suffix` on a one-file tree. -/
theorem listFiles_returns_absolute_suffix_witness :
    isAbsolute "/docs/a.png" = true ∧ supportedFileExtensionsTest "/docs/a.png" = true ∧
    normalisePath "/home" "/docs/a.png" = "/docs/a.png" :=
  listFiles_returns_absolute_suffix "/home" "/docs" [.file "a.png"] (by decide)
    "/docs/a.png" (by decide)

/-! ## Credential masking (claim C10) -/

/-- Two strings of equal length at least 6 that agree on their first two and
last two characters have identical masks: every middle character is rewritten
to `#` regardless of its value. -/
theorem maskChars_eq_of_agree (s t : List Char)
    (hlen : s.length = t.length) (h6 : 6 ≤ s.length)
    (hpre : s.take 2 = t.take 2)
    (hsuf : s.drop (s.length - 2) = t.drop (t.length - 2)) :
    maskChars s = maskChars t := by
  have hpre' : ∀ j, j < 2 → s[j]? = t[j]? := by
    intro j hj
    have hc := congrArg (fun l => l[j]?) hpre
    simpa [List.getElem?_take, hj] using hc
  have hsuf' : ∀ j, s[s.length - 2 + j]? = t[t.length - 2 + j]? := by
    intro j
    have hc := congrArg (fun l => l[j]?) hsuf
    simpa [List.getElem?_drop] using hc
  unfold maskChars
  rw [if_neg (by omega), if_neg (by omega)]
  apply List.ext_getElem
  · simp [hlen]
  · intro i h1 h2
    have hi : i < s.length := by simpa using h1
    have hit : i < t.length := by omega
    simp only [List.getElem_map, List.getElem_enum]
    by_cases hc : i < 2 ∨ i > s.length - 3
    · have hct : i < 2 ∨ i > t.length - 3 := by omega
      rw [if_pos hc, if_pos hct]
      have hval : s[i]? = t[i]? := by
        rcases hc with hlt | hgt
        · exact hpre' i hlt
        · have h8 := hsuf' (i - (s.length - 2))
          have e1 : s.length - 2 + (i - (s.length - 2)) = i := by omega
          have e2 : t.length - 2 + (i - (s.length - 2)) = i := by omega
          rw [e1, e2] at h8
          exact h8
      rw [List.getElem?_eq_getElem hi, List.getElem?_eq_getElem hit] at hval
      exact Option.some.inj hval
    · have hct : ¬(i < 2 ∨ i > t.length - 3) := by omega
      rw [if_neg hc, if_neg hct]

/-- Claim C10 counterexample: `str.replace(/./g, '#')` leaves line
terminators alone, so a short credential containing a newline is not fully
replaced by `#` — its middle newline survives into the log. -/
theorem mask_newline_cex :
    mask "ab\ncd" = "##\n##" ∧ mask "ab\ncd" ≠ "#####" := by
  decide

/-- Claim C10 (amended): the boot log prints the credentials only through
`mask`.  For strings shorter than 6 every character except a line
terminator becomes `#`; for strings of length at least 6 the first two and
last two characters are kept and every middle character becomes `#`
unconditionally, so two configurations whose credentials have equal length
(at least 6) and agree on their first two and last two characters produce
identical boot log lines. -/
theorem mask_boot_log_noninterference :
    (∀ s : String, s.length < 6 → ∀ c ∈ (mask s).data, c = '#' ∨ lineTerm c = true) ∧
    (∀ c1 c2 : Config,
      c1.action = c2.action → c1.file = c2.file → c1.directory = c2.directory →
      c1.output = c2.output → c1.host = c2.host →
      c1.appKey.length = c2.appKey.length → 6 ≤ c1.appKey.length →
      c1.appKey.data.take 2 = c2.appKey.data.take 2 →
      c1.appKey.data.drop (c1.appKey.length - 2)
        = c2.appKey.data.drop (c2.appKey.length - 2) →
      c1.appId.length = c2.appId.length → 6 ≤ c1.appId.length →
      c1.appId.data.take 2 = c2.appId.data.take 2 →
      c1.appId.data.drop (c1.appId.length - 2)
        = c2.appId.data.drop (c2.appId.length - 2) →
      bootLogLine c1 = bootLogLine c2) := by
  constructor
  · intro s hs c hc
    unfold mask maskChars at hc
    rw [if_pos (show s.data.length < 6 from hs)] at hc
    rcases List.mem_map.1 hc with ⟨c0, _, rfl⟩
    by_cases hl : lineTerm c0 <;> simp [hl]
  · intro c1 c2 ha hf hd ho hh hkl hk6 hkp hks hil hi6 hip his
    have hmk : mask c1.appKey = mask c2.appKey := by
      unfold mask
      rw [maskChars_eq_of_agree c1.appKey.data c2.appKey.data hkl hk6 hkp hks]
    have hmi : mask c1.appId = mask c2.appId := by
      unfold mask
      rw [maskChars_eq_of_agree c1.appId.data c2.appId.data hil hi6 hip his]
    unfold bootLogLine
    rw [ha, hf, hd, ho, hh, hmk, hmi]

/-- Two configurations differing only in the middle characters of their
credentials. -/
def sampleConfigA : Config :=
  ⟨"readKYC", none, some "/docs", "", "abXXXXef", "cdYYYYgh",
    "https://ind-docs.hyperverge.co/v2.0/"⟩

/-- Same outer characters, different middles. -/
def sampleConfigB : Config :=
  ⟨"readKYC", none, some "/docs", "", "abZZZZef", "cdWWWWgh",
    "https://ind-docs.hyperverge.co/v2.0/"⟩

/-- Witness for `mask_boot_log_noninterference` at concrete data. -/
theorem mask_boot_log_noninterference_witness :
    (∀ c ∈ (mask "key").data, c = '#' ∨ lineTerm c = true) ∧
    bootLogLine sampleConfigA = bootLogLine sampleConfigB :=
  ⟨mask_boot_log_noninterference.1 "key" (by decide),
   mask_boot_log_noninterference.2 sampleConfigA sampleConfigB rfl rfl rfl rfl rfl
     (by decide) (by decide) (by decide) (by decide) (by decide) (by decide)
     (by decide) (by decide)⟩

end Hyperverge
